import Mathlib

/-!
Verification development for the imap-icloud-migration engine.

The Python sources under src/imap_icloud_migration are shallowly embedded:
byte strings become List Nat (one Nat per byte), text strings become
List Char, SQLite tables become lists of row structures, and the evidence
directory becomes an association list from paths to file entries.
Hash functions and the Python email-address/header parsers are abstracted
as function parameters; everything whose control flow the claims depend on
is translated line by line from the source.
-/

/-! ## Generic character and byte helpers -/

/-- ASCII whitespace recognized by Python str.strip / bytes.strip
(space, tab, newline, carriage return, vertical tab, form feed).
Python additionally strips non-ASCII Unicode whitespace from str values;
the model restricts attention to ASCII, which covers every claim input. -/
def isWsC (c : Char) : Bool :=
  c = ' ' || c = '\t' || c = '\n' || c = '\r' || c = '\x0b' || c = '\x0c'

/-- Whitespace test on a byte value, mirroring isWsC. -/
def isWsB (b : Nat) : Bool :=
  b = 32 || b = 9 || b = 10 || b = 13 || b = 11 || b = 12

/-- Python str.strip() on a character list. -/
def stripC (l : List Char) : List Char :=
  (((l.dropWhile isWsC).reverse).dropWhile isWsC).reverse

/-- Python bytes.strip() on a byte list. -/
def stripB (l : List Nat) : List Nat :=
  (((l.dropWhile isWsB).reverse).dropWhile isWsB).reverse

/-- ASCII lowercasing of one character, modelling Python str.lower on the
ASCII range (the claims only use ASCII inputs). -/
def lowerChar (c : Char) : Char :=
  if 65 ≤ c.toNat ∧ c.toNat ≤ 90 then Char.ofNat (c.toNat + 32) else c

/-- ASCII uppercasing of one byte, modelling Python bytes.upper(). -/
def upperByte (b : Nat) : Nat :=
  if 97 ≤ b ∧ b ≤ 122 then b - 32 else b

/-- Does the second list start with the first (pattern) list? -/
def startsWithL : List Nat → List Nat → Bool
  | [], _ => true
  | _ :: _, [] => false
  | p :: ps, b :: bs => p == b && startsWithL ps bs

/-- Does the second list start with the first (pattern) list, char version? -/
def startsWithC : List Char → List Char → Bool
  | [], _ => true
  | _ :: _, [] => false
  | p :: ps, b :: bs => p == b && startsWithC ps bs

/-- Substring containment (Python in operator on str), char version. -/
def containsSub (pat : List Char) : List Char → Bool
  | [] => startsWithC pat []
  | c :: rest => startsWithC pat (c :: rest) || containsSub pat rest

/-- Byte encoding of an ASCII Lean string literal (code point = byte). -/
def asciiB (s : String) : List Nat := s.data.map Char.toNat

/-! ## utils/email.py: normalize_message_id -/

/-- Translation of normalize_message_id from utils/email.py.
Strings are modelled as List Char; None as Option.none. -/
def normalize_message_id (value : Option (List Char)) : Option (List Char) :=
  match value with
  | none => none
  | some value0 =>
    let v1 := stripC value0
    if v1 = [] then none
    else
      let v2 := if v1.contains ' ' then stripC (v1.takeWhile (fun c => c ≠ ' ')) else v1
      let v3 :=
        if v2.head? = some '<' ∧ v2.getLast? = some '>' then stripC ((v2.drop 1).dropLast)
        else v2
      if v3 = [] then none else some ('<' :: (v3.map lowerChar ++ ['>']))

/-- Claim C7 reference behavior, written from the claim text: absent for
absent/empty/blank input; otherwise truncate at the FIRST WHITESPACE,
strip a single enclosing pair of angle brackets, lowercase the interior,
re-wrap in angle brackets. -/
def normalizeMessageIdClaimRef (value : Option (List Char)) : Option (List Char) :=
  match value with
  | none => none
  | some value0 =>
    let v1 := stripC value0
    if v1 = [] then none
    else
      let v2 := v1.takeWhile (fun c => ! isWsC c)
      let v3 :=
        if v2.head? = some '<' ∧ v2.getLast? = some '>' then (v2.drop 1).dropLast
        else v2
      some ('<' :: (v3.map lowerChar ++ ['>']))

/-- Amended C7 reference behavior: truncate at the first SPACE character
(then strip surrounding whitespace), strip a single enclosing pair of angle
brackets (then strip surrounding whitespace of the interior), return absent
when the interior is empty, otherwise lowercase and re-wrap. -/
def normalizeMessageIdAmendedRef (value : Option (List Char)) : Option (List Char) :=
  match value with
  | none => none
  | some value0 =>
    let v1 := stripC value0
    if v1 = [] then none
    else
      let v2 := stripC (v1.takeWhile (fun c => c ≠ ' '))
      let v3 :=
        if v2.head? = some '<' ∧ v2.getLast? = some '>' then stripC ((v2.drop 1).dropLast)
        else v2
      if v3 = [] then none else some ('<' :: (v3.map lowerChar ++ ['>']))

/-! ## storage/eml_store.py: _safe_folder_name -/

/-- Characters allowed through the sanitizer regex class [A-Za-z0-9._-]. -/
def allowedFolderChar (c : Char) : Bool :=
  (65 ≤ c.toNat && c.toNat ≤ 90) || (97 ≤ c.toNat && c.toNat ≤ 122) ||
  (48 ≤ c.toNat && c.toNat ≤ 57) || c = '.' || c = '_' || c = '-'

/-- Characters trimmed by Python strip("._-"). -/
def isTrimC (c : Char) : Bool := c = '.' || c = '_' || c = '-'

/-- Python strip("._-") on a character list. -/
def trimDotUnd (l : List Char) : List Char :=
  (((l.dropWhile isTrimC).reverse).dropWhile isTrimC).reverse

/-- Fueled translation of re.sub applied with pattern [^A-Za-z0-9._-]+ and
replacement _: each maximal nonempty run of disallowed characters becomes a
single underscore.  The fuel argument only makes the run-skipping recursion
structural; it is instantiated with the list length, which always suffices. -/
def subRunsFuel : Nat → List Char → List Char
  | 0, l => l
  | _ + 1, [] => []
  | fuel + 1, c :: rest =>
    if allowedFolderChar c then c :: subRunsFuel fuel rest
    else '_' :: subRunsFuel fuel (rest.dropWhile (fun d => ! allowedFolderChar d))

/-- The regex substitution of _FOLDER_SAFE_RE in eml_store.py. -/
def subRuns (l : List Char) : List Char := subRunsFuel l.length l

/-- Translation of _safe_folder_name from storage/eml_store.py: strip
whitespace, replace path separators (os.sep = "/" on the POSIX deployment
platform, then "/" again) by underscores, collapse every other disallowed
run to one underscore via the regex, trim leading/trailing "._-", and fall
back to "folder" when empty. -/
def safeFolderName (folder : List Char) : List Char :=
  let s1 := stripC folder
  let s2 := s1.map (fun c => if c = '/' then '_' else c)
  let s3 := subRuns s2
  let s4 := trimDotUnd s3
  if s4 = [] then "folder".data else s4

/-- Claim C8 reference behavior, written from the claim text: replace path
separators and EVERY character outside [A-Za-z0-9._-] with one underscore
per replaced character, trim leading/trailing "._-", default to "folder". -/
def safeFolderClaimRef (folder : List Char) : List Char :=
  let r := folder.map (fun c => if allowedFolderChar c then c else '_')
  let t := trimDotUnd r
  if t = [] then "folder".data else t

/-- State-machine formulation of the run-collapsing substitution: an allowed
character is copied; a disallowed character emits an underscore only when the
previous character was allowed (the flag records a pending disallowed run). -/
def subRunsGo : Bool → List Char → List Char
  | _, [] => []
  | prevBad, c :: rest =>
    if allowedFolderChar c then c :: subRunsGo false rest
    else if prevBad then subRunsGo true rest
    else '_' :: subRunsGo true rest

/-- Amended C8 reference behavior: strip surrounding whitespace, replace each
path separator with an underscore, replace every MAXIMAL RUN of characters
outside [A-Za-z0-9._-] with a SINGLE underscore, trim leading/trailing "._-",
default to "folder". -/
def safeFolderAmendedRef (folder : List Char) : List Char :=
  let s1 := stripC folder
  let s2 := s1.map (fun c => if c = '/' then '_' else c)
  let s3 := subRunsGo false s2
  let s4 := trimDotUnd s3
  if s4 = [] then "folder".data else s4

/-! ## gmail/labels.py: folder_to_system_labels -/

/-- Gmail system label identifiers from models/types.py. -/
inductive GmailSystemLabelId where
  | inbox
  | sent
  | trash
  | spam
  | draft
deriving DecidableEq

/-- Translation of folder_to_system_labels from gmail/labels.py: the name
is stripped and lowercased, then the five conditions run in source order
(equality with inbox; equality with sent, or a sent prefix, or a sent
messages substring; a trash substring or equality with deleted messages or
deleted; a junk or spam substring; a draft substring). -/
def folder_to_system_labels (folder : List Char) : List GmailSystemLabelId :=
  let lowered := (stripC folder).map lowerChar
  if lowered == "inbox".data then [GmailSystemLabelId.inbox]
  else if lowered == "sent".data || startsWithC "sent".data lowered ||
      containsSub "sent messages".data lowered then [GmailSystemLabelId.sent]
  else if containsSub "trash".data lowered || lowered == "deleted messages".data ||
      lowered == "deleted".data then [GmailSystemLabelId.trash]
  else if containsSub "junk".data lowered || containsSub "spam".data lowered then
    [GmailSystemLabelId.spam]
  else if containsSub "draft".data lowered then [GmailSystemLabelId.draft]
  else []

/-- The five system-label rules in their fixed order, each as a predicate on
the stripped lowercased folder name. -/
def sysLabelRules : List ((List Char → Bool) × GmailSystemLabelId) :=
  [ (fun l => l == "inbox".data, GmailSystemLabelId.inbox),
    (fun l => l == "sent".data || startsWithC "sent".data l ||
      containsSub "sent messages".data l, GmailSystemLabelId.sent),
    (fun l => containsSub "trash".data l || l == "deleted messages".data ||
      l == "deleted".data, GmailSystemLabelId.trash),
    (fun l => containsSub "junk".data l || containsSub "spam".data l, GmailSystemLabelId.spam),
    (fun l => containsSub "draft".data l, GmailSystemLabelId.draft) ]

/-- First-matching-rule formulation: the earliest rule in the fixed order
inbox, sent, trash, spam, draft that accepts the name decides the label. -/
def folderSystemLabelsRef (folder : List Char) : List GmailSystemLabelId :=
  ((sysLabelRules.find? (fun r => r.1 ((stripC folder).map lowerChar))).map Prod.snd).toList

/-! ## utils/email.py: MinimalHeaders and AddressFilter -/

/-- Minimal header set from utils/email.py.  Header values are modelled as
UTF-8 encoded byte lists (Option.none for an absent header), which is the
form the fingerprint canonicalization consumes. -/
structure HeadersM where
  date_raw : Option (List Nat)
  date_dt_iso : Option (List Nat)
  from_ : Option (List Nat)
  to_ : Option (List Nat)
  cc : Option (List Nat)
  bcc : Option (List Nat)
  delivered_to : Option (List Nat)
  x_original_to : Option (List Nat)
  envelope_to : Option (List Nat)
  subject : Option (List Nat)
  message_id_norm : Option (List Nat)

/-- The recipient-candidate set built by AddressFilter.matches: the union of
the addresses extracted from To, Cc, Bcc, Delivered-To, X-Original-To and
Envelope-To.  The extraction function parameter models
extract_email_addresses (which maps an absent header to the empty set and
lowercases every address it returns). -/
def recipientCandidates (extract : Option (List Nat) → Finset String) (h : HeadersM) :
    Finset String :=
  extract h.to_ ∪ extract h.cc ∪ extract h.bcc ∪ extract h.delivered_to ∪
    extract h.x_original_to ∪ extract h.envelope_to

/-- AddressFilter configuration from utils/email.py. -/
structure AddressFilterM where
  target_addresses : Finset String
  include_sender : Bool
  include_recipients : Bool

/-- Translation of AddressFilter.matches from utils/email.py: accept when the
target set is empty; otherwise accept when the sender addresses (if
include_sender) or the recipient candidates (if include_recipients)
intersect the targets; otherwise reject. -/
def addressFilterMatches (extract : Option (List Nat) → Finset String)
    (f : AddressFilterM) (h : HeadersM) : Bool :=
  if f.target_addresses = ∅ then true
  else if f.include_sender = true ∧ (extract h.from_ ∩ f.target_addresses).Nonempty then true
  else if f.include_recipients = true ∧
      (recipientCandidates extract h ∩ f.target_addresses).Nonempty then true
  else false

/-! ## utils/email.py: body_prefix and utils/fingerprint.py -/

/-- One step of the regex fragment backslash-r-question backslash-n at
position i: greedily consume a CR 13 followed by LF 10, else a lone LF 10;
returns the end position of the consumed text. -/
def matchNLB (l : List Nat) (i : Nat) : Option Nat :=
  if l.get? i = some 13 ∧ l.get? (i + 1) = some 10 then some (i + 2)
  else if l.get? i = some 10 then some (i + 1)
  else none

/-- Match of _HEADER_BODY_SPLIT_RE (two consecutive optional-CR LF pairs) at
position i, returning the position one past the match.  The two halves are
deterministic, so no backtracking between them is possible. -/
def matchHeaderEnd (l : List Nat) (i : Nat) : Option Nat :=
  (matchNLB l i).bind (matchNLB l)

/-- Leftmost-match search of re.search: try start positions in increasing
order; fuel makes the scan structural and is instantiated to cover the whole
list. -/
def findSplitFrom (l : List Nat) : Nat → Nat → Option Nat
  | _, 0 => none
  | i, fuel + 1 =>
    match matchHeaderEnd l i with
    | some e => some e
    | none => findSplitFrom l (i + 1) fuel

/-- End position of the first header/body split of raw RFC822 bytes. -/
def findHeaderSplit (l : List Nat) : Option Nat := findSplitFrom l 0 (l.length + 1)

/-- Translation of body_prefix from utils/email.py.  max_bytes is a Nat here;
the Python guard for max_bytes ≤ 0 coincides with List.take 0 = []. -/
def bodyPrefixBytes (raw : List Nat) (maxBytes : Nat) : List Nat :=
  match findHeaderSplit raw with
  | none => raw.take maxBytes
  | some start => (raw.drop start).take maxBytes

/-- Python bytes-level or on header fields: an absent header contributes the
empty byte string. -/
def optBytes (o : Option (List Nat)) : List Nat := o.getD []

/-- Python or between two byte strings: the first when nonempty (truthy),
otherwise the second. -/
def pyOrBytes (a b : List Nat) : List Nat := if a = [] then b else a

/-- Decimal ASCII digits of a natural number (str(len(raw)) encoded). -/
def natDecBytes (n : Nat) : List Nat := (Nat.toDigits 10 n).map Char.toNat

/-- Newline join mirroring the Python str.join call; joining already UTF-8
encoded fields with byte 10 equals encoding the joined string, since UTF-8
encoding is concatenation-homomorphic and encodes a newline as byte 10. -/
def joinNL : List (List Nat) → List Nat
  | [] => []
  | [x] => x
  | x :: y :: rest => x ++ (10 :: joinNL (y :: rest))

/-- Result record of compute_fingerprint from utils/fingerprint.py. -/
structure FingerprintResultM where
  fingerprint : String
  message_id_norm : Option (List Nat)
  headers : HeadersM

/-- Translation of compute_fingerprint from utils/fingerprint.py.  The
SHA-256 hex digest and the header parser (parse_minimal_headers) are
abstract function parameters; the canonicalization, the body extraction and
the digest input assembly follow the source line by line. -/
def compute_fingerprint (sha : List Nat → String) (parse : List Nat → HeadersM)
    (raw : List Nat) (body_bytes : Nat) : FingerprintResultM :=
  let headers := parse raw
  let body := bodyPrefixBytes raw body_bytes
  let canonical := joinNL
    [ pyOrBytes (optBytes headers.date_dt_iso) (optBytes headers.date_raw),
      optBytes headers.from_,
      optBytes headers.to_,
      optBytes headers.subject,
      natDecBytes raw.length ]
  { fingerprint := sha (canonical ++ (10 :: body)),
    message_id_norm := headers.message_id_norm,
    headers := headers }

/-- Reference body-split position written from the spec text: the end of the
FIRST match of the optional-CR LF twice pattern, expressed as a search over
all start positions. -/
def specSplitEnd (l : List Nat) : Option Nat :=
  ((List.range (l.length + 1)).find? (fun i => (matchHeaderEnd l i).isSome)).bind
    (matchHeaderEnd l)

/-- Claim C4 reference fingerprint, written from the claim text: SHA-256 of
the newline-joined field list (normalized ISO date, or raw date, or empty;
From; To; Subject; decimal length), one newline, then the first n body
bytes, where the body follows the first header/body split (the raw prefix
when no split exists). -/
def fingerprintSpecRef (sha : List Nat → String) (parse : List Nat → HeadersM)
    (raw : List Nat) (body_bytes : Nat) : String :=
  let headers := parse raw
  let body :=
    match specSplitEnd raw with
    | none => raw.take body_bytes
    | some start => (raw.drop start).take body_bytes
  sha (List.intercalate [10]
    [ pyOrBytes (optBytes headers.date_dt_iso) (optBytes headers.date_raw),
      optBytes headers.from_,
      optBytes headers.to_,
      optBytes headers.subject,
      natDecBytes raw.length ] ++ (10 :: body))

/-! ## storage/eml_store.py: EMLStore.write_immutable -/

/-- One evidence file: its bytes and its POSIX mode. -/
structure FileEntry where
  bytes : List Nat
  mode : Nat
deriving DecidableEq

/-- Decimal ASCII characters of a natural number. -/
def natDecChars (n : Nat) : List Char := Nat.toDigits 10 n

/-- Evidence target path folder_dir / (uv)-(uid).eml with uv the uidvalidity
or 0 when unknown (Python uidvalidity or 0). -/
def emlTargetPath (folder : List Char) (uidvalidity : Option Nat) (uid : Nat) : List Char :=
  safeFolderName folder ++ ('/' :: (natDecChars (uidvalidity.getD 0) ++
    ('-' :: (natDecChars uid ++ ".eml".data))))

/-- Lookup of a path in the evidence directory, modelled as an association
list from paths to file entries. -/
def fsGet (fs : List (List Char × FileEntry)) (p : List Char) : Option FileEntry :=
  (fs.find? (fun e => e.1 == p)).map Prod.snd

/-- Error raised by write_immutable when an existing evidence file differs
(the EvidenceMismatch of the spec's error taxonomy; the source raises
ValueError with an explanatory message). -/
inductive EmlError where
  | evidenceMismatch
deriving DecidableEq

/-- Result record of a write_immutable call. -/
structure EmlWriteResult where
  path : List Char
  sha256 : String
  size_bytes : Nat
deriving DecidableEq

/-- Translation of EMLStore.write_immutable from storage/eml_store.py over
an abstract hash function.  Directory creation does not change file
contents and is not modelled; the temp-file/fsync/rename/chmod sequence of
the fresh-write branch nets to the atomic appearance of the target with the
raw bytes and mode 0o444, which is how the branch is modelled.  Returns the
updated directory and the result record, or the mismatch error. -/
def write_immutable (sha : List Nat → String) (fs : List (List Char × FileEntry))
    (folder : List Char) (uidvalidity : Option Nat) (uid : Nat) (raw : List Nat) :
    Except EmlError (List (List Char × FileEntry) × EmlWriteResult) :=
  let target := emlTargetPath folder uidvalidity uid
  let expected := sha raw
  match fsGet fs target with
  | some entry =>
    let actual := sha entry.bytes
    if actual = expected then
      Except.ok (fs, { path := target, sha256 := actual, size_bytes := entry.bytes.length })
    else Except.error EmlError.evidenceMismatch
  | none =>
    Except.ok ((target, { bytes := raw, mode := 0o444 }) :: fs,
      { path := target, sha256 := expected, size_bytes := raw.length })

/-! ## storage/state_db.py: rows and tables -/

/-- Message lifecycle statuses from models/state.py. -/
inductive MessageStatus where
  | discovered
  | downloaded
  | imported
  | skipped_duplicate
  | skipped_filtered
  | failed
deriving DecidableEq

/-- Folder row of the folders table.  Timestamps are opaque naturals; the
last_uid_seen column is nullable in the schema. -/
structure FolderRowM where
  name : List Char
  uidvalidity : Option Nat
  last_uid_seen : Option Nat
  created_at : Nat
  updated_at : Nat
deriving DecidableEq

/-- Message row of the messages table, restricted to the columns the
modelled operations read or write (the remaining columns are never touched
by upsert_message_discovered or reset_skipped_and_failed). -/
structure MessageRowM where
  id : Nat
  folder : List Char
  uid : Nat
  uidvalidity : Option Nat
  status : MessageStatus
  message_id_norm : Option (List Char)
  fingerprint : List Char
  size_bytes : Option Nat
  created_at : Nat
  updated_at : Nat
deriving DecidableEq

/-- The SQLite state database: the two tables in rowid order plus the next
AUTOINCREMENT value for messages.id. -/
structure StateDbM where
  folders : List FolderRowM
  messages : List MessageRowM
  next_id : Nat
deriving DecidableEq

/-- Statuses reset_skipped_and_failed rewrites (the SQL IN list). -/
def isResetTarget (s : MessageStatus) : Bool :=
  s = MessageStatus.skipped_filtered || s = MessageStatus.failed ||
    s = MessageStatus.skipped_duplicate

/-- Translation of StateDb.reset_skipped_and_failed: one transaction that
sets every folder's last_uid_seen to 0, rewrites the status of every message
row whose status is in the IN list to discovered, and returns the rowcount
of the message UPDATE (the number of matched rows). -/
def reset_skipped_and_failed (db : StateDbM) : StateDbM × Nat :=
  ({ db with
      folders := db.folders.map (fun f => { f with last_uid_seen := some 0 }),
      messages := db.messages.map (fun m =>
        if isResetTarget m.status then { m with status := MessageStatus.discovered } else m) },
    (db.messages.filter (fun m => isResetTarget m.status)).length)

/-- Equality of uidvalidity values as SQLite's UNIQUE constraint sees it:
NULL is distinct from every value, including another NULL.  This is what
decides whether the INSERT of upsert_message_discovered conflicts. -/
def uvUniqueEq (a b : Option Nat) : Bool :=
  match a, b with
  | some x, some y => x == y
  | _, _ => false

/-- Row predicate of the post-insert SELECT: folder=? AND uid=? AND
uidvalidity IS ? (the IS operator makes NULL equal to NULL). -/
def selectKeyMatch (folder : List Char) (uid : Nat) (uv : Option Nat) (m : MessageRowM) : Bool :=
  m.folder == folder && m.uid == uid && m.uidvalidity == uv

/-- The ON CONFLICT DO UPDATE row rewrite of upsert_message_discovered:
refresh message_id_norm, fingerprint, size_bytes and updated_at, and reset
status to discovered exactly when it is skipped_filtered or failed. -/
def upsertRefresh (mid : Option (List Char)) (fp : List Char) (sz : Option Nat) (now : Nat)
    (m : MessageRowM) : MessageRowM :=
  { m with
      message_id_norm := mid,
      fingerprint := fp,
      size_bytes := sz,
      updated_at := now,
      status :=
        if m.status = MessageStatus.skipped_filtered ∨ m.status = MessageStatus.failed then
          MessageStatus.discovered
        else m.status }

/-- Fresh row inserted by upsert_message_discovered when no conflict fires. -/
def upsertFreshRow (db : StateDbM) (folder : List Char) (uid : Nat) (uv : Option Nat)
    (mid : Option (List Char)) (fp : List Char) (sz : Option Nat) (now : Nat) : MessageRowM :=
  { id := db.next_id, folder := folder, uid := uid, uidvalidity := uv,
    status := MessageStatus.discovered, message_id_norm := mid, fingerprint := fp,
    size_bytes := sz, created_at := now, updated_at := now }

/-- Index of the first row violating the UNIQUE(folder, uid, uidvalidity)
constraint against the incoming row (None when the insert conflicts with
nothing, in particular always when the incoming uidvalidity is NULL). -/
def conflictIdx (db : StateDbM) (folder : List Char) (uid : Nat) (uv : Option Nat) :
    Option Nat :=
  db.messages.findIdx? (fun m =>
    m.folder == folder && m.uid == uid && uvUniqueEq m.uidvalidity uv)

/-- Translation of StateDb.upsert_message_discovered: INSERT with status
discovered; ON CONFLICT(folder, uid, uidvalidity) DO UPDATE applying
upsertRefresh; then SELECT the first row in rowid order with folder=?,
uid=? and uidvalidity IS ?.  The second component models the fetched row
(the source asserts it is present). -/
def upsert_message_discovered (db : StateDbM) (folder : List Char) (uid : Nat)
    (uv : Option Nat) (mid : Option (List Char)) (fp : List Char) (sz : Option Nat)
    (now : Nat) : StateDbM × Option MessageRowM :=
  let db2 :=
    match conflictIdx db folder uid uv with
    | some i =>
      { db with messages :=
          match db.messages.get? i with
          | some m => db.messages.set i (upsertRefresh mid fp sz now m)
          | none => db.messages }
    | none =>
      { db with
          messages := db.messages ++ [upsertFreshRow db folder uid uv mid fp sz now],
          next_id := db.next_id + 1 }
  (db2, db2.messages.find? (selectKeyMatch folder uid uv))

/-! ## pipeline/orchestrator.py: retry_async -/

/-- Outcome of a retry_async run in the deterministic model: the final
result (the first success or the last exception), the backoff sleeps
performed between attempts, in order, and the number of invocations. -/
structure RetryOut (E T : Type) where
  result : Except E T
  sleeps : List Rat
  calls : Nat

/-- Translation of the retry loop of retry_async from
pipeline/orchestrator.py.  The awaited callable is modelled as a function
from the attempt number (counted from 1) to that invocation's outcome, and
random.uniform(0, jitter) as a function from the attempt number to the
drawn jitter.  Fuel is the number of attempts remaining including the
current one; on the last attempt no sleep happens and an exception is
re-raised.  The fuel-zero case is unreachable for attempts ≥ 1. -/
def retryGo (fn : Nat → Except E T) (base_delay_s max_delay_s : Rat) (jit : Nat → Rat) :
    Nat → Nat → RetryOut E T
  | i, 0 => { result := fn i, sleeps := [], calls := 1 }
  | i, 1 => { result := fn i, sleeps := [], calls := 1 }
  | i, fuel + 2 =>
    match fn i with
    | Except.ok t => { result := Except.ok t, sleeps := [], calls := 1 }
    | Except.error _ =>
      let delay := min max_delay_s (base_delay_s * 2 ^ (i - 1)) + jit i
      let r := retryGo fn base_delay_s max_delay_s jit (i + 1) (fuel + 1)
      { result := r.result, sleeps := delay :: r.sleeps, calls := r.calls + 1 }

/-- retry_async with attempts ≥ 1: run the loop from attempt 1. -/
def retry_async (fn : Nat → Except E T) (attempts : Nat) (base_delay_s max_delay_s : Rat)
    (jit : Nat → Rat) : RetryOut E T :=
  retryGo fn base_delay_s max_delay_s jit 1 attempts

/-- Success test for an Except value. -/
def exceptOk : Except E T → Bool
  | Except.ok _ => true
  | Except.error _ => false

/-! ## imap/client.py: _parse_list_response -/

/-- Match of the regex tail fragment dot-plus anchored at end of line
against the remaining bytes: the capture is the remainder (without a single
trailing LF, which the anchor may sit before), and it must be nonempty and
LF-free because the dot of the bytes pattern does not cross newlines. -/
def nameMatch (rest : List Nat) : Option (List Nat) :=
  let body := if rest.getLast? = some 10 then rest.dropLast else rest
  if body ≠ [] ∧ ¬ (body.contains 10 = true) then some body else none

/-- Backtracking over the greedy whitespace-plus run before the name
capture: try the longest whitespace run first, down to length one. -/
def contGo (l : List Nat) : Nat → Option (List Nat)
  | 0 => none
  | k + 1 =>
    match nameMatch (l.drop (k + 1)) with
    | some nm => some nm
    | none => contGo l k

/-- Match of the regex fragment whitespace-plus then the name capture. -/
def contMatch (l : List Nat) : Option (List Nat) :=
  contGo l (l.takeWhile isWsB).length

/-- Match of _LIST_MAILBOX_RE against one line, returning the name capture.
The pattern is: start anchor, literal star space LIST space, parenthesized
flags without closing parens, whitespace-plus, a delimiter that is NIL or a
quoted string or a nonempty non-whitespace atom (tried in that order, with
backtracking into later alternatives when the rest of the pattern fails),
whitespace-plus, then the name capture to the end anchor.  Within each
delimiter alternative the greedy sub-matches are deterministic, so the
alternation order is the only backtracking needed. -/
def listMailboxMatch (line : List Nat) : Option (List Nat) :=
  if startsWithL (asciiB "* LIST (") line then
    let rest := line.drop 8
    let flags := rest.takeWhile (fun b => b ≠ 41)
    match rest.drop flags.length with
    | 41 :: rest2 =>
      let ws := rest2.takeWhile isWsB
      if ws = [] then none
      else
        let rest3 := rest2.drop ws.length
        let tryNIL :=
          if startsWithL (asciiB "NIL") rest3 then contMatch (rest3.drop 3) else none
        let tryQuoted :=
          match rest3 with
          | 34 :: after =>
            let inner := after.takeWhile (fun b => b ≠ 34)
            if inner.length < after.length then contMatch (after.drop (inner.length + 1))
            else none
          | _ => none
        let tryAtom :=
          let run := rest3.takeWhile (fun b => ! isWsB b)
          if run = [] then none else contMatch (rest3.drop run.length)
        (tryNIL <|> tryQuoted) <|> tryAtom
    | _ => none
  else none

/-- Post-match processing of the stripped name token: when it contains a
quote and a second quote exists, slice from the first to the last quote
inclusive; when it contains no quote, keep the last whitespace-separated
part. -/
def splitWsGo : List Nat → List Nat → List (List Nat)
  | [], acc => if acc = [] then [] else [acc.reverse]
  | b :: bs, acc =>
    if isWsB b then (if acc = [] then splitWsGo bs [] else acc.reverse :: splitWsGo bs [])
    else splitWsGo bs (b :: acc)

/-- Python bytes.split() without separator: whitespace runs separate parts,
empty parts are dropped. -/
def splitWsB (l : List Nat) : List (List Nat) := splitWsGo l []

/-- Quote slicing and atom fallback applied to the name token in
_parse_list_response. -/
def processNameToken (tok : List Nat) : List Nat :=
  if tok.contains 34 then
    let first := (tok.takeWhile (fun b => b ≠ 34)).length
    let afterFirst := tok.drop (first + 1)
    if afterFirst.contains 34 then
      let lastRel := afterFirst.length - 1 - (afterFirst.reverse.takeWhile (fun b => b ≠ 34)).length
      let last := first + 1 + lastRel
      (tok.drop first).take (last - first + 1)
    else tok
  else
    match (splitWsB tok).getLast? with
    | some p => p
    | none => tok

/-- Match of _LITERAL_RE: an opening brace, one or more decimal digits, a
closing brace, and nothing else. -/
def isLiteralTok (tok : List Nat) : Bool :=
  match tok with
  | 123 :: rest =>
    let mid := rest.dropLast
    rest.getLast? == some 125 && !mid.isEmpty && mid.all (fun b => decide (48 ≤ b ∧ b ≤ 57))
  | _ => false

/-- Replacement of the two-byte escape backslash-quote by a quote,
left-to-right and non-overlapping (Python bytes.replace). -/
def unescQuote : List Nat → List Nat
  | 92 :: 34 :: rest => 34 :: unescQuote rest
  | b :: rest => b :: unescQuote rest
  | [] => []

/-- Replacement of the two-byte escape backslash-backslash by a backslash,
left-to-right and non-overlapping (Python bytes.replace). -/
def unescBackslash : List Nat → List Nat
  | 92 :: 92 :: rest => 92 :: unescBackslash rest
  | b :: rest => b :: unescBackslash rest
  | [] => []

/-- Translation of _decode_mailbox_name: strip, drop empty and NIL tokens,
strip one enclosing quote pair and undo the two escapes, then decode as
ASCII with replacement (the imaplib module has no DecodeUTF7 attribute, so
the getattr branch of the source never runs). -/
def decodeMailboxName (raw : List Nat) : String :=
  let v := stripB raw
  if v = [] ∨ v.map upperByte = asciiB "NIL" then ""
  else
    let v2 :=
      if v.head? = some 34 ∧ v.getLast? = some 34 ∧ 2 ≤ v.length then
        unescBackslash (unescQuote ((v.drop 1).dropLast))
      else v
    String.mk (v2.map (fun b => if b < 128 then Char.ofNat b else Char.ofNat 0xFFFD))

/-- The collection loop of _parse_list_response: skip continuation lines
starting with a plus, prepend star LIST to lines starting with a
parenthesis, match the LIST regex, process the name token, consume the next
line for a brace literal (stopping when no next line exists), decode, and
keep nonempty names. -/
def parseListGo : List (List Nat) → List String
  | [] => []
  | line :: rest =>
    let l := stripB line
    if startsWithL (asciiB "+") l then parseListGo rest
    else
      let l2 := if startsWithL (asciiB "(") l then asciiB "* LIST " ++ l else l
      match listMailboxMatch l2 with
      | none => parseListGo rest
      | some nameGroup =>
        let tok := processNameToken (stripB nameGroup)
        if isLiteralTok tok then
          match rest with
          | [] => []
          | nxt :: rest2 =>
            let nm := decodeMailboxName (stripB nxt)
            if nm = "" then parseListGo rest2 else nm :: parseListGo rest2
        else
          let nm := decodeMailboxName tok
          if nm = "" then parseListGo rest else nm :: parseListGo rest

/-- First-seen-order de-duplication pass of _parse_list_response. -/
def dedupGo (seen : List String) : List String → List String
  | [] => []
  | n :: rest =>
    if seen.contains n then dedupGo seen rest else n :: dedupGo (n :: seen) rest

/-- Translation of _parse_list_response from imap/client.py. -/
def parse_list_response (lines : List (List Nat)) : List String :=
  dedupGo [] (parseListGo lines)

/-! ## Helper lemmas about dropWhile-based stripping -/

theorem dropWhileHead {α : Type} (p : α → Bool) :
    ∀ (l : List α) (a : α), (l.dropWhile p).head? = some a → p a = false := by
  intro l
  induction l with
  | nil => intro a h; simp [List.dropWhile] at h
  | cons c rest ih =>
    intro a h
    by_cases hc : p c = true
    · rw [List.dropWhile_cons, if_pos hc] at h
      exact ih a h
    · rw [List.dropWhile_cons, if_neg hc] at h
      simp at h
      rw [h] at hc
      simpa using hc

theorem dropWhileSelf {α : Type} (p : α → Bool) (l : List α)
    (h : ∀ a, l.head? = some a → p a = false) : l.dropWhile p = l := by
  cases l with
  | nil => rfl
  | cons c rest =>
    have hc := h c rfl
    rw [List.dropWhile_cons, if_neg (by simp [hc])]

theorem dropWhileLast {α : Type} (p : α → Bool) :
    ∀ l : List α, l.dropWhile p ≠ [] → (l.dropWhile p).getLast? = l.getLast? := by
  intro l
  induction l with
  | nil => intro h; simp [List.dropWhile] at h
  | cons c rest ih =>
    intro h
    by_cases hc : p c = true
    · rw [List.dropWhile_cons, if_pos hc] at h ⊢
      have hrest : rest ≠ [] := by
        intro he; rw [he] at h; simp [List.dropWhile] at h
      rw [ih h]
      cases rest with
      | nil => exact absurd rfl hrest
      | cons r rs => rw [List.getLast?_cons_cons]
    · rw [List.dropWhile_cons, if_neg hc]

theorem stripC_idem (l : List Char) : stripC (stripC l) = stripC l := by
  unfold stripC
  have hCdrop :
      ((((l.dropWhile isWsC).reverse).dropWhile isWsC).reverse).dropWhile isWsC =
        (((l.dropWhile isWsC).reverse).dropWhile isWsC).reverse := by
    apply dropWhileSelf
    intro a ha
    rw [List.head?_reverse] at ha
    have hCne : ((l.dropWhile isWsC).reverse).dropWhile isWsC ≠ [] := by
      intro he; rw [he] at ha; simp at ha
    rw [dropWhileLast isWsC (l.dropWhile isWsC).reverse hCne, List.getLast?_reverse] at ha
    exact dropWhileHead isWsC l a ha
  rw [hCdrop, List.reverse_reverse]
  have hCC :
      (((l.dropWhile isWsC).reverse).dropWhile isWsC).dropWhile isWsC =
        ((l.dropWhile isWsC).reverse).dropWhile isWsC := by
    apply dropWhileSelf
    intro a ha
    exact dropWhileHead isWsC (l.dropWhile isWsC).reverse a ha
  rw [hCC]

theorem takeWhileNoSpace (l : List Char) (h : l.contains ' ' = false) :
    l.takeWhile (fun c => c ≠ ' ') = l := by
  induction l with
  | nil => rfl
  | cons c rest ih =>
    rw [List.contains_cons] at h
    simp only [Bool.or_eq_false_iff] at h
    have hc : c ≠ ' ' := by
      intro he; rw [he] at h; simp at h
    rw [List.takeWhile_cons, if_pos (by simpa using hc)]
    rw [ih h.2]

/-! ## Claim C7 theorems -/

/-- C7 counterexample: on the concrete Message-ID value left-angle A at B
right-angle tab C (which contains a tab but no space character), the source
returns the whole lowercased value re-wrapped in an extra pair of angle
brackets, while the claimed behavior (truncation at the first whitespace)
yields the plain normalized id, so the claim as stated is false at this
input. -/
theorem claim_C7_counterexample :
    normalize_message_id (some ("<A@B>\tC".data)) = some ("<<a@b>\tc>".data) ∧
    normalizeMessageIdClaimRef (some ("<A@B>\tC".data)) = some ("<a@b>".data) ∧
    normalize_message_id (some ("<A@B>\tC".data)) ≠
      normalizeMessageIdClaimRef (some ("<A@B>\tC".data)) := by
  refine ⟨by decide, by decide, by decide⟩

/-- C7 (amended): normalize_message_id returns absent for absent, empty or
blank input; otherwise it truncates the stripped value at the first SPACE
character (stripping surrounding whitespace), strips a single enclosing pair
of angle brackets (stripping surrounding whitespace of the interior),
returns absent when the interior is then empty, and otherwise lowercases the
interior and re-wraps it in angle brackets --- and the three concrete
examples of the claim hold. -/
theorem claim_C7_normalize_message_id :
    (∀ v, normalize_message_id v = normalizeMessageIdAmendedRef v) ∧
    normalize_message_id (some (" <ABC@EXAMPLE.COM> ".data)) =
      some ("<abc@example.com>".data) ∧
    normalize_message_id (some ("<a@b> extra".data)) = some ("<a@b>".data) ∧
    normalize_message_id (some ("".data)) = none := by
  refine ⟨?_, by decide, by decide, by decide⟩
  intro v
  cases v with
  | none => rfl
  | some value0 =>
    by_cases hc : (stripC value0).contains ' ' = true
    · simp only [normalize_message_id, normalizeMessageIdAmendedRef, hc, if_true]
    · have hcf : (stripC value0).contains ' ' = false := by
        revert hc; cases (stripC value0).contains ' ' <;> simp
      have h1 : (stripC value0).takeWhile (fun c => c ≠ ' ') = stripC value0 :=
        takeWhileNoSpace (stripC value0) hcf
      simp only [normalize_message_id, normalizeMessageIdAmendedRef, hcf, h1,
        stripC_idem, Bool.false_eq_true, if_false]

/-! ## Claim C8 theorems -/

theorem subRunsGo_skip : ∀ l : List Char,
    subRunsGo true l = subRunsGo false (l.dropWhile (fun d => ! allowedFolderChar d)) := by
  intro l
  induction l with
  | nil => rfl
  | cons c rest ih =>
    by_cases hc : allowedFolderChar c = true
    · rw [List.dropWhile_cons, if_neg (by simp [hc])]
      simp only [subRunsGo, hc, if_true]
    · have hcf : allowedFolderChar c = false := by
        revert hc; cases allowedFolderChar c <;> simp
      rw [List.dropWhile_cons, if_pos (by simp [hcf])]
      simp only [subRunsGo, hcf, Bool.false_eq_true, if_false, if_true]
      exact ih

theorem subRunsFuel_eq : ∀ (fuel : Nat) (l : List Char), l.length ≤ fuel →
    subRunsFuel fuel l = subRunsGo false l := by
  intro fuel
  induction fuel with
  | zero =>
    intro l hl
    have : l = [] := by
      cases l with
      | nil => rfl
      | cons c rest => simp at hl
    rw [this]; rfl
  | succ n ih =>
    intro l hl
    cases l with
    | nil => rfl
    | cons c rest =>
      by_cases hc : allowedFolderChar c = true
      · simp only [subRunsFuel, subRunsGo, hc, if_true]
        rw [ih rest (by simpa using Nat.le_of_succ_le_succ hl)]
      · have hcf : allowedFolderChar c = false := by
          revert hc; cases allowedFolderChar c <;> simp
        simp only [subRunsFuel, subRunsGo, hcf, Bool.false_eq_true, if_false]
        have hlen : (rest.dropWhile (fun d => ! allowedFolderChar d)).length ≤ n := by
          have h1 := List.IsSuffix.length_le
            (List.dropWhile_suffix (l := rest) (fun d => ! allowedFolderChar d))
          have h2 : rest.length ≤ n := by simpa using Nat.le_of_succ_le_succ hl
          omega
        rw [ih _ hlen, subRunsGo_skip]

/-- C8 counterexample: on the concrete folder name a-semicolon-semicolon-b
the sanitizer collapses the two-character disallowed run to one underscore
(the substituted regex carries a one-or-more quantifier), while the claimed
per-character replacement would give two underscores, so the claim as
stated is false at this input. -/
theorem claim_C8_counterexample :
    safeFolderName ("a;;b".data) = "a_b".data ∧
    safeFolderClaimRef ("a;;b".data) = "a__b".data ∧
    safeFolderName ("a;;b".data) ≠ safeFolderClaimRef ("a;;b".data) := by
  refine ⟨by decide, by decide, by decide⟩

/-- C8 (amended): for every folder name, the evidence-path sanitizer strips
surrounding whitespace, replaces each path separator with an underscore,
replaces every MAXIMAL RUN of consecutive characters outside
[A-Za-z0-9._-] with a SINGLE underscore, trims leading and trailing dot,
underscore and hyphen characters, and returns the string folder when the
result is empty; equivalently it agrees everywhere with the state-machine
reference sanitizer. -/
theorem claim_C8_safe_folder_name :
    ∀ l : List Char, safeFolderName l = safeFolderAmendedRef l := by
  intro l
  unfold safeFolderName safeFolderAmendedRef subRuns
  simp only [subRunsFuel_eq _ _ (Nat.le_refl _)]


/-! ## Claim C10 theorem -/

/-- C10: folder_to_system_labels returns a list of length at most one, and
it agrees with a first-match scan over the rule list in the fixed order
inbox, sent, trash, spam, draft, so when several rules match the earliest
wins; in particular the name spamdraft (containing both spam and draft)
yields only the spam label. -/
theorem claim_C10_system_labels (folder : List Char) :
    folder_to_system_labels folder = folderSystemLabelsRef folder ∧
    (folder_to_system_labels folder).length ≤ 1 ∧
    folder_to_system_labels ("spamdraft".data) = [GmailSystemLabelId.spam] := by
  have hmain : ∀ l : List Char,
      (if l == "inbox".data then [GmailSystemLabelId.inbox]
       else if l == "sent".data || startsWithC "sent".data l ||
           containsSub "sent messages".data l then [GmailSystemLabelId.sent]
       else if containsSub "trash".data l || l == "deleted messages".data ||
           l == "deleted".data then [GmailSystemLabelId.trash]
       else if containsSub "junk".data l || containsSub "spam".data l then
         [GmailSystemLabelId.spam]
       else if containsSub "draft".data l then [GmailSystemLabelId.draft]
       else []) = ((sysLabelRules.find? (fun r => r.1 l)).map Prod.snd).toList := by
    intro l
    cases e1 : (l == "inbox".data) with
    | true => simp [sysLabelRules, List.find?, e1]
    | false =>
      cases e2 : (l == "sent".data || startsWithC "sent".data l ||
          containsSub "sent messages".data l) with
      | true => simp [sysLabelRules, List.find?, e1, e2]
      | false =>
        cases e3 : (containsSub "trash".data l || l == "deleted messages".data ||
            l == "deleted".data) with
        | true => simp [sysLabelRules, List.find?, e1, e2, e3]
        | false =>
          cases e4 : (containsSub "junk".data l || containsSub "spam".data l) with
          | true => simp [sysLabelRules, List.find?, e1, e2, e3, e4]
          | false =>
            cases e5 : (containsSub "draft".data l) with
            | true => simp [sysLabelRules, List.find?, e1, e2, e3, e4, e5]
            | false => simp [sysLabelRules, List.find?, e1, e2, e3, e4, e5]
  have heq : folder_to_system_labels folder = folderSystemLabelsRef folder :=
    hmain ((stripC folder).map lowerChar)
  refine ⟨heq, ?_, by decide⟩
  · rw [heq]
    unfold folderSystemLabelsRef
    cases (sysLabelRules.find? (fun r => r.1 ((stripC folder).map lowerChar))) <;> simp

/-! ## Claim C5 theorem -/

/-- C5: AddressFilter.matches accepts exactly when the target set is empty,
or include_sender is set and the addresses extracted from From intersect the
targets, or include_recipients is set and the union of the addresses
extracted from the six recipient headers intersects the targets; with a
nonempty target set and both flags off it rejects every message. -/
theorem claim_C5_address_filter (extract : Option (List Nat) → Finset String)
    (f : AddressFilterM) (h : HeadersM) :
    (addressFilterMatches extract f h = true ↔
      (f.target_addresses = ∅ ∨
       (f.include_sender = true ∧ (extract h.from_ ∩ f.target_addresses).Nonempty) ∨
       (f.include_recipients = true ∧
         (recipientCandidates extract h ∩ f.target_addresses).Nonempty))) ∧
    (f.target_addresses = ∅ → addressFilterMatches extract f h = true) ∧
    (f.target_addresses ≠ ∅ → f.include_sender = false → f.include_recipients = false →
      addressFilterMatches extract f h = false) := by
  unfold addressFilterMatches
  split_ifs with h1 h2 h3 <;> simp_all

/-! ## Claim C4 theorems -/

theorem joinNL_eq_intercalate : ∀ ls : List (List Nat), joinNL ls = List.intercalate [10] ls := by
  intro ls
  match ls with
  | [] => simp [joinNL, List.intercalate]
  | [x] => simp [joinNL, List.intercalate]
  | x :: y :: rest =>
    have ih := joinNL_eq_intercalate (y :: rest)
    simp only [joinNL, ih]
    simp [List.intercalate, List.intersperse]

theorem findSplitFrom_eq_range (l : List Nat) : ∀ (fuel i : Nat),
    findSplitFrom l i fuel =
      ((List.range' i fuel).find? (fun j => (matchHeaderEnd l j).isSome)).bind
        (matchHeaderEnd l) := by
  intro fuel
  induction fuel with
  | zero => intro i; simp [findSplitFrom, List.range']
  | succ n ih =>
    intro i
    rw [List.range'_succ i n 1]
    cases hm : matchHeaderEnd l i with
    | some e =>
      simp only [findSplitFrom, hm, List.find?]
      simp [hm]
    | none =>
      simp only [findSplitFrom, hm, List.find?]
      simp [hm, ih (i + 1)]

theorem findHeaderSplit_eq_spec (l : List Nat) : findHeaderSplit l = specSplitEnd l := by
  unfold findHeaderSplit specSplitEnd
  rw [findSplitFrom_eq_range, List.range_eq_range']

/-- C4: compute_fingerprint is a pure deterministic function and its hex
digest equals the reference definition written from the spec: the hash of
the newline-joined field sequence (normalized ISO date, or raw date, or
empty; From; To; Subject; decimal length of raw), one newline, and the
first n bytes of the body following the first optional-CR LF twice split
(the raw prefix when no split exists); two calls on the same input are
equal.  The hash and header parser are the abstracted SHA-256 and
parse_minimal_headers. -/
theorem claim_C4_fingerprint (sha : List Nat → String) (parse : List Nat → HeadersM)
    (raw : List Nat) (n : Nat) :
    (compute_fingerprint sha parse raw n).fingerprint = fingerprintSpecRef sha parse raw n ∧
    compute_fingerprint sha parse raw n = compute_fingerprint sha parse raw n := by
  refine ⟨?_, rfl⟩
  unfold compute_fingerprint fingerprintSpecRef bodyPrefixBytes
  rw [findHeaderSplit_eq_spec]
  simp only [joinNL_eq_intercalate]

/-! ## Claim C6 theorem -/

/-- C6: the LIST-response parser handles quoted names, unquoted atoms and
brace literals and de-duplicates preserving first-seen order: the four-line
input yields exactly INBOX, Sent Messages, Archive, and the literal input
(open-brace 12 close-brace followed by the line Sent Messages) yields
exactly Sent Messages. -/
theorem claim_C6_list_parse :
    parse_list_response
      [ asciiB "* LIST (\\HasNoChildren) \"/\" \"INBOX\"",
        asciiB "* LIST (\\HasNoChildren) \"/\" \"Sent Messages\"",
        asciiB "* LIST (\\Noselect) NIL \"Archive\"",
        asciiB "* LIST (\\HasNoChildren) \"/\" INBOX" ] =
      ["INBOX", "Sent Messages", "Archive"] ∧
    parse_list_response
      [asciiB "* LIST (\\HasNoChildren) \"/\" {12}", asciiB "Sent Messages"] =
      ["Sent Messages"] := by
  refine ⟨by decide, by decide⟩

/-! ## Claim C1 theorems -/

/-- C1: when the target path of a write_immutable call already exists, the
call succeeds exactly when the hash of the existing bytes equals the hash of
the incoming bytes, in which case it returns the existing path, that hash
and the existing size with the directory unchanged; otherwise it fails with
EvidenceMismatch without touching any file.  Moreover a successful write is
idempotent: repeating it returns the same directory, path and hash. -/
theorem claim_C1_write_immutable (sha : List Nat → String)
    (fs : List (List Char × FileEntry)) (folder : List Char) (uv : Option Nat) (uid : Nat)
    (raw : List Nat) (entry : FileEntry)
    (hexists : fsGet fs (emlTargetPath folder uv uid) = some entry) :
    (exceptOk (write_immutable sha fs folder uv uid raw) = true ↔
      sha entry.bytes = sha raw) ∧
    (sha entry.bytes = sha raw →
      write_immutable sha fs folder uv uid raw =
        Except.ok (fs, EmlWriteResult.mk (emlTargetPath folder uv uid) (sha entry.bytes)
          entry.bytes.length)) ∧
    (sha entry.bytes ≠ sha raw →
      write_immutable sha fs folder uv uid raw = Except.error EmlError.evidenceMismatch) ∧
    (∀ fs0 fs1 r1, write_immutable sha fs0 folder uv uid raw = Except.ok (fs1, r1) →
      write_immutable sha fs1 folder uv uid raw = Except.ok (fs1, r1)) := by
  refine ⟨?_, ?_, ?_, ?_⟩
  · simp only [write_immutable, hexists]
    by_cases he : sha entry.bytes = sha raw
    · simp [he, exceptOk]
    · simp [he, exceptOk]
  · intro he
    simp only [write_immutable, hexists]
    simp [he]
  · intro he
    simp only [write_immutable, hexists]
    simp [he]
  · intro fs0 fs1 r1 h1
    cases hget : fsGet fs0 (emlTargetPath folder uv uid) with
    | some e =>
      simp only [write_immutable, hget] at h1
      by_cases he : sha e.bytes = sha raw
      · rw [if_pos he] at h1
        simp only [Except.ok.injEq, Prod.mk.injEq] at h1
        obtain ⟨hfs, hr⟩ := h1
        subst hfs
        subst hr
        simp only [write_immutable, hget]
        rw [if_pos he]
      · rw [if_neg he] at h1
        exact absurd h1 (by simp)
    | none =>
      simp only [write_immutable, hget] at h1
      simp only [Except.ok.injEq, Prod.mk.injEq] at h1
      obtain ⟨hfs, hr⟩ := h1
      subst hfs
      subst hr
      have hget2 : fsGet ((emlTargetPath folder uv uid, FileEntry.mk raw 292) :: fs0)
          (emlTargetPath folder uv uid) = some (FileEntry.mk raw 292) := by
        simp [fsGet, List.find?]
      simp only [write_immutable, hget2]
      simp

/-- Concrete hash function for the C1 witness. -/
def c1ShaW : List Nat → String := fun l => Nat.repr l.length

/-- Concrete one-file evidence directory for the C1 witness. -/
def c1FsW : List (List Char × FileEntry) :=
  [(emlTargetPath ("INBOX".data) (some 1) 2, FileEntry.mk [65] 292)]

/-- C1 witness: the existing-target hypothesis holds at a concrete
one-file directory, and the theorem applied there gives the concrete
successful idempotent write. -/
theorem claim_C1_witness :
    fsGet c1FsW (emlTargetPath ("INBOX".data) (some 1) 2) = some (FileEntry.mk [65] 292) ∧
    write_immutable c1ShaW c1FsW ("INBOX".data) (some 1) 2 [65] =
      Except.ok (c1FsW, EmlWriteResult.mk (emlTargetPath ("INBOX".data) (some 1) 2)
        (c1ShaW [65]) 1) :=
  ⟨by decide, (claim_C1_write_immutable c1ShaW c1FsW ("INBOX".data) (some 1) 2 [65]
      (FileEntry.mk [65] 292) (by decide)).2.1 rfl⟩

/-! ## Claim C2 theorems -/

theorem isResetTarget_ne_discovered {s : MessageStatus} (h : isResetTarget s = true) :
    s ≠ MessageStatus.discovered := by
  cases s <;> simp_all [isResetTarget]

theorem countResetChanged : ∀ ms : List MessageRowM,
    (ms.filter (fun m => isResetTarget m.status)).length =
      ((ms.zip (ms.map (fun m => if isResetTarget m.status then
          { m with status := MessageStatus.discovered } else m))).filter
        (fun p => decide (p.1 ≠ p.2))).length := by
  intro ms
  induction ms with
  | nil => rfl
  | cons m rest ih =>
    by_cases hm : isResetTarget m.status = true
    · have hne : m ≠ { m with status := MessageStatus.discovered } := by
        intro he
        have := congrArg MessageRowM.status he
        simp at this
        exact isResetTarget_ne_discovered hm this
      simp only [List.map_cons, List.zip_cons_cons, List.filter_cons, hm, if_true]
      simp only [hm, if_true] at *
      simp [hne, ih]
    · have hmf : isResetTarget m.status = false := by
        revert hm; cases isResetTarget m.status <;> simp
      simp only [List.map_cons, List.zip_cons_cons, List.filter_cons, hmf]
      simp [ih]

/-- C2: reset_skipped_and_failed sets every folder row's last_uid_seen to 0
(leaving the other folder columns alone), transitions exactly the message
rows whose status is skipped_filtered, failed or skipped_duplicate to
discovered, leaves every other row (in particular imported and downloaded
rows) completely unchanged, and returns the number of message rows it
changed (the positions where the new table differs from the old one). -/
theorem claim_C2_reset (db : StateDbM) :
    ((reset_skipped_and_failed db).1.folders.length = db.folders.length ∧
     ∀ i f0, db.folders.get? i = some f0 →
       (reset_skipped_and_failed db).1.folders.get? i =
         some { f0 with last_uid_seen := some 0 }) ∧
    (∀ i m, db.messages.get? i = some m → isResetTarget m.status = true →
       (reset_skipped_and_failed db).1.messages.get? i =
         some { m with status := MessageStatus.discovered }) ∧
    (∀ i m, db.messages.get? i = some m → isResetTarget m.status = false →
       (reset_skipped_and_failed db).1.messages.get? i = some m) ∧
    (reset_skipped_and_failed db).2 =
      ((db.messages.zip (reset_skipped_and_failed db).1.messages).filter
        (fun p => decide (p.1 ≠ p.2))).length := by
  refine ⟨⟨?_, ?_⟩, ?_, ?_, ?_⟩
  · simp [reset_skipped_and_failed]
  · intro i f0 h
    simp only [reset_skipped_and_failed, List.get?_map, h]
    rfl
  · intro i m h hm
    simp only [reset_skipped_and_failed, List.get?_map, h]
    simp [hm]
  · intro i m h hm
    simp only [reset_skipped_and_failed, List.get?_map, h]
    simp [hm]
  · exact countResetChanged db.messages

/-! ## Claim C9 theorems -/

theorem retryGo_spec {E T : Type} (fn : Nat → Except E T) (base cap : Rat) (jit : Nat → Rat) :
    ∀ (fuel : Nat), 1 ≤ fuel → ∀ (i : Nat),
      1 ≤ (retryGo fn base cap jit i fuel).calls ∧
      (retryGo fn base cap jit i fuel).calls ≤ fuel ∧
      (retryGo fn base cap jit i fuel).result =
        fn (i + (retryGo fn base cap jit i fuel).calls - 1) ∧
      (∀ j, j + 1 < (retryGo fn base cap jit i fuel).calls →
        exceptOk (fn (i + j)) = false) ∧
      (exceptOk (fn (i + (retryGo fn base cap jit i fuel).calls - 1)) = true ∨
        (retryGo fn base cap jit i fuel).calls = fuel) ∧
      (retryGo fn base cap jit i fuel).sleeps.length =
        (retryGo fn base cap jit i fuel).calls - 1 ∧
      (∀ j, j < (retryGo fn base cap jit i fuel).sleeps.length →
        (retryGo fn base cap jit i fuel).sleeps.getD j 0 =
          min cap (base * 2 ^ (i + j - 1)) + jit (i + j)) := by
  intro fuel
  induction fuel with
  | zero => intro h; omega
  | succ n ih =>
    intro _ i
    cases n with
    | zero =>
      refine ⟨?_, ?_, ?_, ?_, ?_, ?_, ?_⟩ <;> simp only [retryGo]
      · exact Nat.le_refl 1
      · exact Nat.le_refl 1
      · simp
      · intro j hj; omega
      · exact Or.inr trivial
      · rfl
      · intro j hj; simp at hj
    | succ m =>
      have ih2 := ih (by omega) (i + 1)
      obtain ⟨h1, h2, h3, h4, h5, h6, h7⟩ := ih2
      cases hf : fn i with
      | ok t =>
        refine ⟨?_, ?_, ?_, ?_, ?_, ?_, ?_⟩ <;> simp only [retryGo, hf]
        · exact Nat.le_refl 1
        · omega
        · simp [hf]
        · intro j hj; omega
        · left; simp [hf, exceptOk]
        · rfl
        · intro j hj; simp at hj
      | error e =>
        refine ⟨?_, ?_, ?_, ?_, ?_, ?_, ?_⟩ <;> simp only [retryGo, hf]
        · omega
        · omega
        · rw [h3]
          congr 1
          omega
        · intro j hj
          cases j with
          | zero =>
            rw [Nat.add_zero, hf]
            rfl
          | succ j2 =>
            have hlt : j2 + 1 < (retryGo fn base cap jit (i + 1) (m + 1)).calls := by
              omega
            have h := h4 j2 hlt
            have harith : i + 1 + j2 = i + (j2 + 1) := by omega
            rw [harith] at h
            exact h
        · rcases h5 with h5a | h5b
          · left
            have harith : i + ((retryGo fn base cap jit (i + 1) (m + 1)).calls + 1) - 1 =
                i + 1 + (retryGo fn base cap jit (i + 1) (m + 1)).calls - 1 := by omega
            rw [harith]
            exact h5a
          · right; omega
        · simp only [List.length_cons]
          omega
        · intro j hj
          simp only [List.length_cons] at hj
          cases j with
          | zero =>
            simp only [List.getD_cons_zero]
            have harith : i + 0 - 1 = i - 1 := by omega
            rw [harith]
            have harith2 : i + 0 = i := by omega
            rw [harith2]
          | succ j2 =>
            simp only [List.getD_cons_succ]
            have hlt : j2 < (retryGo fn base cap jit (i + 1) (m + 1)).sleeps.length := by
              omega
            have h := h7 j2 hlt
            have ha1 : i + 1 + j2 - 1 = i + (j2 + 1) - 1 := by omega
            have ha2 : i + 1 + j2 = i + (j2 + 1) := by omega
            rw [ha1, ha2] at h
            exact h

/-- C9: retry_async with k at least 1 attempts makes between 1 and k
invocations; its result is the outcome of the last invocation made; every
invocation before the last failed (so the first success is returned);
unless that last invocation succeeded all k attempts were used, and when
every attempt fails the k-th attempt's exception is re-raised; exactly one
sleep happens between consecutive attempts and none after the final one;
and the sleep after failed attempt number j+1 equals
min(cap, base times 2 to the j) plus the drawn jitter, hence lies between
that backoff value and the backoff value plus the jitter bound. -/
theorem claim_C9_retry_async {E T : Type} (fn : Nat → Except E T) (k : Nat)
    (base cap jitterS : Rat) (jit : Nat → Rat) (hk : 1 ≤ k)
    (hjit : ∀ i, 0 ≤ jit i ∧ jit i ≤ jitterS) :
    (1 ≤ (retry_async fn k base cap jit).calls ∧
      (retry_async fn k base cap jit).calls ≤ k) ∧
    (retry_async fn k base cap jit).result = fn (retry_async fn k base cap jit).calls ∧
    (∀ j, j + 1 < (retry_async fn k base cap jit).calls →
      exceptOk (fn (j + 1)) = false) ∧
    (exceptOk (fn (retry_async fn k base cap jit).calls) = true ∨
      (retry_async fn k base cap jit).calls = k) ∧
    (retry_async fn k base cap jit).sleeps.length =
      (retry_async fn k base cap jit).calls - 1 ∧
    (∀ j, j < (retry_async fn k base cap jit).sleeps.length →
      (retry_async fn k base cap jit).sleeps.getD j 0 =
        min cap (base * 2 ^ j) + jit (j + 1) ∧
      min cap (base * 2 ^ j) ≤ (retry_async fn k base cap jit).sleeps.getD j 0 ∧
      (retry_async fn k base cap jit).sleeps.getD j 0 ≤
        min cap (base * 2 ^ j) + jitterS) ∧
    ((∀ i, 1 ≤ i → i ≤ k → exceptOk (fn i) = false) →
      (retry_async fn k base cap jit).calls = k ∧
      (retry_async fn k base cap jit).result = fn k) := by
  unfold retry_async
  obtain ⟨h1, h2, h3, h4, h5, h6, h7⟩ := retryGo_spec fn base cap jit k hk 1
  have hcalls : 1 + (retryGo fn base cap jit 1 k).calls - 1 =
      (retryGo fn base cap jit 1 k).calls := by omega
  rw [hcalls] at h3 h5
  refine ⟨⟨h1, h2⟩, h3, ?_, h5, h6, ?_, ?_⟩
  · intro j hj
    have h := h4 j hj
    have harith : 1 + j = j + 1 := by omega
    rw [harith] at h
    exact h
  · intro j hj
    have h := h7 j hj
    have ha1 : 1 + j - 1 = j := by omega
    have ha2 : 1 + j = j + 1 := by omega
    rw [ha1, ha2] at h
    refine ⟨h, ?_, ?_⟩
    · rw [h]
      have := (hjit (j + 1)).1
      linarith
    · rw [h]
      have := (hjit (j + 1)).2
      linarith
  · intro hall
    have hck : (retryGo fn base cap jit 1 k).calls = k := by
      rcases h5 with h5a | h5b
      · exfalso
        have := hall (retryGo fn base cap jit 1 k).calls h1 h2
        rw [this] at h5a
        exact Bool.false_ne_true h5a
      · exact h5b
    refine ⟨hck, ?_⟩
    rw [h3, hck]

/-- Concrete outcome sequence for the C9 witness: attempt 2 succeeds. -/
def c9FnW : Nat → Except Nat Nat := fun i => if i = 2 then Except.ok 7 else Except.error 0

/-- Zero jitter draw for the C9 witness. -/
def c9JitW : Nat → Rat := fun _ => 0

/-- C9 witness: the hypotheses hold at three attempts with zero jitter, and
the theorem applied there gives the first-success result and the
no-sleep-after-last-attempt count. -/
theorem claim_C9_witness :
    (1 ≤ 3 ∧ (∀ i, 0 ≤ c9JitW i ∧ c9JitW i ≤ 0)) ∧
    (retry_async c9FnW 3 1 20 c9JitW).result =
      c9FnW (retry_async c9FnW 3 1 20 c9JitW).calls ∧
    (retry_async c9FnW 3 1 20 c9JitW).sleeps.length =
      (retry_async c9FnW 3 1 20 c9JitW).calls - 1 :=
  have h := claim_C9_retry_async c9FnW 3 1 20 0 c9JitW (by decide)
    (fun i => ⟨le_refl 0, le_refl 0⟩)
  ⟨⟨by decide, fun i => ⟨le_refl 0, le_refl 0⟩⟩, h.2.1, h.2.2.2.2.1⟩

/-! ## Claim C3 theorems -/

theorem uvUniqueEq_some (a : Option Nat) (v : Nat) : uvUniqueEq a (some v) = (a == some v) := by
  cases a <;> rfl

theorem uvUniqueEq_none (a : Option Nat) : uvUniqueEq a none = false := by
  cases a <;> rfl

theorem conflictPredIff (folder : List Char) (uid : Nat) (v : Nat) (m : MessageRowM) :
    (m.folder == folder && m.uid == uid && uvUniqueEq m.uidvalidity (some v)) = true ↔
      (m.folder = folder ∧ m.uid = uid ∧ m.uidvalidity = some v) := by
  simp [uvUniqueEq_some, Bool.and_eq_true, beq_iff_eq, and_assoc]

theorem selectKeyIff (folder : List Char) (uid : Nat) (uv : Option Nat) (m : MessageRowM) :
    selectKeyMatch folder uid uv m = true ↔
      (m.folder = folder ∧ m.uid = uid ∧ m.uidvalidity = uv) := by
  simp [selectKeyMatch, Bool.and_eq_true, beq_iff_eq, and_assoc]

theorem findIdxFromSome {α : Type} (p : α → Bool) :
    ∀ (l : List α) (i : Nat) (m : α) (i0 : Nat), l.get? i = some m → p m = true →
      (∀ j mj, j < i → l.get? j = some mj → p mj = false) →
      List.findIdx? p l i0 = some (i0 + i) := by
  intro l
  induction l with
  | nil => intro i m i0 hi; simp at hi
  | cons a rest ih =>
    intro i m i0 hi hp hfirst
    cases i with
    | zero =>
      simp at hi
      rw [List.findIdx?_cons, if_pos (hi ▸ hp)]
      simp
    | succ i2 =>
      have ha : p a = false := hfirst 0 a (Nat.succ_pos i2) rfl
      rw [List.findIdx?_cons, if_neg (by simp [ha])]
      have := ih i2 m (i0 + 1) hi hp
        (fun j mj hj hg => hfirst (j + 1) mj (by omega) hg)
      rw [this]
      congr 1
      omega

theorem findIdxNone {α : Type} (p : α → Bool) :
    ∀ (l : List α) (i0 : Nat), (∀ x ∈ l, p x = false) → List.findIdx? p l i0 = none := by
  intro l
  induction l with
  | nil => intro i0 _; rfl
  | cons a rest ih =>
    intro i0 h
    rw [List.findIdx?_cons, if_neg (by simp [h a (List.mem_cons_self a rest)])]
    exact ih (i0 + 1) (fun x hx => h x (List.mem_cons_of_mem a hx))

theorem findSetFirst {α : Type} (p : α → Bool) :
    ∀ (l : List α) (i : Nat) (x : α),
      (∀ j mj, j < i → l.get? j = some mj → p mj = false) →
      i < l.length → p x = true → (l.set i x).find? p = some x := by
  intro l
  induction l with
  | nil => intro i x _ hi; simp at hi
  | cons a rest ih =>
    intro i x hbefore hi hx
    cases i with
    | zero =>
      simp only [List.set]
      exact List.find?_cons_of_pos rest hx
    | succ i2 =>
      have ha : p a = false := hbefore 0 a (Nat.succ_pos i2) rfl
      simp only [List.set]
      rw [List.find?_cons_of_neg _ (by simp [ha])]
      exact ih i2 x (fun j mj hj hg => hbefore (j + 1) mj (by omega) hg)
        (by simpa using Nat.lt_of_succ_lt_succ hi) hx

/-- C3 (amended): when a row with the key (folder, uid, uidvalidity) exists
with NON-NULL uidvalidity (and is the only one, per the schema constraint),
upsert_message_discovered refreshes its message_id_norm, fingerprint,
size_bytes and updated_at, resets its status to discovered exactly when the
current status is skipped_filtered or failed (imported, downloaded and
skipped_duplicate statuses are preserved), returns that refreshed row, and
touches nothing else.  When no such row exists it appends a fresh row with
status discovered and returns it.  When uidvalidity is NULL the INSERT never
conflicts (SQLite UNIQUE treats NULLs as distinct), so a fresh discovered
row is always appended, every existing row is left unchanged, and the
fetched row is the FIRST row in rowid order matching folder, uid and a NULL
uidvalidity --- the stale pre-existing row when one exists. -/
theorem claim_C3_upsert_message_discovered (db : StateDbM) (folder : List Char) (uid : Nat)
    (mid : Option (List Char)) (fp : List Char) (sz : Option Nat) (now : Nat) :
    (∀ v i m,
      db.messages.get? i = some m →
      m.folder = folder → m.uid = uid → m.uidvalidity = some v →
      (∀ j mj, db.messages.get? j = some mj →
        mj.folder = folder → mj.uid = uid → mj.uidvalidity = some v → j = i) →
      (upsert_message_discovered db folder uid (some v) mid fp sz now).1.messages =
          db.messages.set i (upsertRefresh mid fp sz now m) ∧
      (upsert_message_discovered db folder uid (some v) mid fp sz now).1.folders =
          db.folders ∧
      (upsert_message_discovered db folder uid (some v) mid fp sz now).1.next_id =
          db.next_id ∧
      (upsert_message_discovered db folder uid (some v) mid fp sz now).2 =
          some (upsertRefresh mid fp sz now m) ∧
      ((upsertRefresh mid fp sz now m).status = MessageStatus.discovered ↔
        (m.status = MessageStatus.skipped_filtered ∨ m.status = MessageStatus.failed ∨
          m.status = MessageStatus.discovered)) ∧
      (m.status = MessageStatus.imported ∨ m.status = MessageStatus.downloaded ∨
          m.status = MessageStatus.skipped_duplicate →
        (upsertRefresh mid fp sz now m).status = m.status)) ∧
    (∀ v,
      (∀ j mj, db.messages.get? j = some mj →
        ¬(mj.folder = folder ∧ mj.uid = uid ∧ mj.uidvalidity = some v)) →
      (upsert_message_discovered db folder uid (some v) mid fp sz now).1.messages =
          db.messages ++ [upsertFreshRow db folder uid (some v) mid fp sz now] ∧
      (upsert_message_discovered db folder uid (some v) mid fp sz now).2 =
          some (upsertFreshRow db folder uid (some v) mid fp sz now) ∧
      (upsertFreshRow db folder uid (some v) mid fp sz now).status =
        MessageStatus.discovered) ∧
    ((upsert_message_discovered db folder uid none mid fp sz now).1.messages =
        db.messages ++ [upsertFreshRow db folder uid none mid fp sz now] ∧
      (db.messages.find? (selectKeyMatch folder uid none) = none →
        (upsert_message_discovered db folder uid none mid fp sz now).2 =
          some (upsertFreshRow db folder uid none mid fp sz now)) ∧
      (∀ m0, db.messages.find? (selectKeyMatch folder uid none) = some m0 →
        (upsert_message_discovered db folder uid none mid fp sz now).2 = some m0)) := by
  refine ⟨?_, ?_, ?_⟩
  · intro v i m hi hf hu huv huniq
    have hpm : (m.folder == folder && m.uid == uid && uvUniqueEq m.uidvalidity (some v)) =
        true := (conflictPredIff folder uid v m).mpr ⟨hf, hu, huv⟩
    have hfirst : ∀ j mj, j < i → db.messages.get? j = some mj →
        (mj.folder == folder && mj.uid == uid && uvUniqueEq mj.uidvalidity (some v)) =
          false := by
      intro j mj hj hg
      cases hpj : (mj.folder == folder && mj.uid == uid &&
          uvUniqueEq mj.uidvalidity (some v)) with
      | true =>
        exfalso
        obtain ⟨h1, h2, h3⟩ := (conflictPredIff folder uid v mj).mp hpj
        exact absurd (huniq j mj hg h1 h2 h3) (by omega)
      | false => rfl
    have hconf : conflictIdx db folder uid (some v) = some i := by
      unfold conflictIdx
      have := findIdxFromSome _ db.messages i m 0 hi hpm hfirst
      simpa using this
    have hmsgs : (upsert_message_discovered db folder uid (some v) mid fp sz now).1.messages =
        db.messages.set i (upsertRefresh mid fp sz now m) := by
      simp only [upsert_message_discovered, hconf, hi]
    refine ⟨hmsgs, ?_, ?_, ?_, ?_, ?_⟩
    · simp only [upsert_message_discovered, hconf, hi]
    · simp only [upsert_message_discovered, hconf, hi]
    · have hlen : i < db.messages.length := by
        obtain ⟨hlt, _⟩ := List.get?_eq_some.mp hi
        exact hlt
      have hx : selectKeyMatch folder uid (some v) (upsertRefresh mid fp sz now m) = true := by
        apply (selectKeyIff folder uid (some v) _).mpr
        refine ⟨?_, ?_, ?_⟩ <;> simp [upsertRefresh, hf, hu, huv]
      have hbefore : ∀ j mj, j < i → db.messages.get? j = some mj →
          selectKeyMatch folder uid (some v) mj = false := by
        intro j mj hj hg
        cases hpj : selectKeyMatch folder uid (some v) mj with
        | true =>
          exfalso
          obtain ⟨h1, h2, h3⟩ := (selectKeyIff folder uid (some v) mj).mp hpj
          exact absurd (huniq j mj hg h1 h2 h3) (by omega)
        | false => rfl
      have hfind := findSetFirst (selectKeyMatch folder uid (some v)) db.messages i
        (upsertRefresh mid fp sz now m) hbefore hlen hx
      simp only [upsert_message_discovered, hconf, hi]
      exact hfind
    · cases hs : m.status <;> simp [upsertRefresh, hs]
    · intro hks
      rcases hks with h | h | h <;> simp [upsertRefresh, h]
  · intro v hnone
    have hconf : conflictIdx db folder uid (some v) = none := by
      unfold conflictIdx
      apply findIdxNone
      intro x hx
      obtain ⟨j, hj⟩ := List.mem_iff_get?.mp hx
      cases hpx : (x.folder == folder && x.uid == uid &&
          uvUniqueEq x.uidvalidity (some v)) with
      | true =>
        exfalso
        exact hnone j x hj ((conflictPredIff folder uid v x).mp hpx)
      | false => rfl
    have hfreshkey : selectKeyMatch folder uid (some v)
        (upsertFreshRow db folder uid (some v) mid fp sz now) = true := by
      apply (selectKeyIff folder uid (some v) _).mpr
      refine ⟨rfl, rfl, rfl⟩
    have holdnone : db.messages.find? (selectKeyMatch folder uid (some v)) = none := by
      apply List.find?_eq_none.mpr
      intro x hx
      obtain ⟨j, hj⟩ := List.mem_iff_get?.mp hx
      intro hpx
      exact hnone j x hj ((selectKeyIff folder uid (some v) x).mp hpx)
    refine ⟨?_, ?_, rfl⟩
    · simp only [upsert_message_discovered, hconf]
    · simp only [upsert_message_discovered, hconf]
      rw [List.find?_append, holdnone]
      simp [List.find?_cons_of_pos _ hfreshkey]
  · have hconf : conflictIdx db folder uid none = none := by
      unfold conflictIdx
      apply findIdxNone
      intro x _
      simp [uvUniqueEq_none]
    have hfreshkey : selectKeyMatch folder uid none
        (upsertFreshRow db folder uid none mid fp sz now) = true := by
      apply (selectKeyIff folder uid none _).mpr
      refine ⟨rfl, rfl, rfl⟩
    refine ⟨?_, ?_, ?_⟩
    · simp only [upsert_message_discovered, hconf]
    · intro hold
      simp only [upsert_message_discovered, hconf]
      rw [List.find?_append, hold]
      simp [List.find?_cons_of_pos _ hfreshkey]
    · intro m0 hold
      simp only [upsert_message_discovered, hconf]
      rw [List.find?_append, hold]
      rfl

/-- Pre-existing NULL-uidvalidity row for the C3 counterexample. -/
def c3Row0 : MessageRowM :=
  { id := 1, folder := "INBOX".data, uid := 1, uidvalidity := none,
    status := MessageStatus.skipped_filtered, message_id_norm := none,
    fingerprint := "old".data, size_bytes := none, created_at := 0, updated_at := 0 }

/-- One-row database for the C3 counterexample. -/
def c3Db0 : StateDbM := { folders := [], messages := [c3Row0], next_id := 2 }

/-- C3 counterexample: re-discovering the key (INBOX, 1, NULL) with a new
fingerprint inserts a SECOND row instead of refreshing the existing one:
the table ends with two rows, the existing row keeps status
skipped_filtered and fingerprint old (the claim requires it to become
discovered with the refreshed fingerprint), and the returned row is that
stale row. -/
theorem claim_C3_counterexample :
    (upsert_message_discovered c3Db0 ("INBOX".data) 1 none none ("new".data) none 7).1.messages.length = 2 ∧
    (upsert_message_discovered c3Db0 ("INBOX".data) 1 none none ("new".data) none 7).1.messages.get? 0 =
      some c3Row0 ∧
    c3Row0.status = MessageStatus.skipped_filtered ∧
    c3Row0.fingerprint = "old".data ∧
    (upsert_message_discovered c3Db0 ("INBOX".data) 1 none none ("new".data) none 7).2 =
      some c3Row0 := by
  refine ⟨by decide, by decide, by decide, by decide, by decide⟩
